import Mathlib

/-!
Verification of the core of Droid-keyusage-go: the bounded concurrent
fetch-and-aggregate engine (worker pool, batch coordinator, cache-aware
aggregator) and the key-import operation.

Shallow embedding notes:
* Go strings are modelled as Lean `String` (character-list based); byte
  slicing `s[a:b]` is modelled by `strTake`/`strDrop` on the character list,
  which coincides with Go for ASCII credentials.
* Go `float64` usage figures are modelled as `ℚ`; the claims under study
  concern which records contribute to sums, not floating-point rounding.
* Wall-clock instants and durations are modelled as `ℤ` (an abstract tick
  count; `time.Duration` values are in nanoseconds).
* The concurrent parts are modelled by explicit oracles: a submit oracle
  (whether the bounded task queue had room on each attempt), a fetch oracle
  (the outcome the remote fetcher produces for a key), and an arrival list
  (the indices of the tasks whose results were drained from the result
  queue before the batch deadline, in completion order).  Theorems quantify
  over all oracles, which captures independence from scheduling.
* Fallible Go functions returning `(T, error)` are modelled with
  `Except String T` or an `Option`-valued second component.
-/

namespace KeyUsage

/-- `storage.APIKey`: a stored key (identifier, secret credential, name).
The creation timestamp plays no role in the claims and is omitted. -/
structure APIKey where
  id : String
  key : String
  name : String
deriving DecidableEq, Repr

/-- `models.Usage` (and `storage.Usage`, which has the same fields except
`key`): a usage record for one key. `ratioUsed` embeds the source field
`UsedRatio`. -/
structure Usage where
  id : String
  key : String
  startDate : String
  endDate : String
  totalAllowance : ℚ
  orgTotalUsed : ℚ
  remaining : ℚ
  ratioUsed : ℚ
  lastUpdated : ℤ
  error : String
deriving DecidableEq, Repr

/-- A `models.Usage` whose only populated fields are `ID` and `Error`
(Go zero values elsewhere), as built for per-key failures. -/
def errorUsage (id msg : String) : Usage :=
  ⟨id, "", "", "", 0, 0, 0, 0, 0, msg⟩

/-- `models.Totals`. -/
structure Totals where
  totalOrgTotalTokensUsed : ℚ
  totalAllowance : ℚ
deriving DecidableEq, Repr

/-- `models.AggregatedData`.  `updateTime` is the stamping instant. -/
structure AggregatedData where
  updateTime : ℤ
  totalCount : ℕ
  totals : Totals
  data : List Usage
deriving DecidableEq, Repr

/-- `models.ImportResult`. -/
structure ImportResult where
  success : ℕ
  failed : ℕ
  duplicates : ℕ
deriving DecidableEq, Repr

/-! ### String slicing helpers (Go byte-slice operations on ASCII strings) -/

/-- Go `s[:n]`. -/
def strTake (s : String) (n : ℕ) : String := ⟨s.data.take n⟩

/-- Go `s[n:]`. -/
def strDrop (s : String) (n : ℕ) : String := ⟨s.data.drop n⟩

/-- Go `len(s)`. -/
def strLen (s : String) : ℕ := s.data.length

/-- Go `strings.TrimSpace`: strip leading and trailing whitespace. -/
def trimSpace (s : String) : String :=
  ⟨((s.data.dropWhile Char.isWhitespace).reverse.dropWhile Char.isWhitespace).reverse⟩

/-! ### Credential masking -/

/-- `APIKeyService.maskKey` (api_key_service): keys of length at most 8 are
returned unchanged, longer keys display as `first4...last4`. -/
def maskKey (key : String) : String :=
  if strLen key ≤ 8 then key
  else strTake key 4 ++ "..." ++ strDrop key (strLen key - 4)

/-- The masked-key expression inside `fetchUsageFromAPI` (worker_pool.go):
`apiKey[:min(4, len(apiKey))] + "..." + apiKey[max(0, len(apiKey)-4):]`.
Natural-number subtraction realises Go's `max(0, len-4)`. -/
def fetchMask (apiKey : String) : String :=
  strTake apiKey (min 4 (strLen apiKey)) ++ "..." ++ strDrop apiKey (strLen apiKey - 4)

/-! ### Remote fetcher -/

/-- The nested `standard` object of `models.FactoryAPIResponse`. -/
structure StandardUsage where
  orgTotalTokensUsed : ℚ
  totalAllowance : ℚ
  ratioUsed : ℚ
deriving DecidableEq, Repr

/-- `models.FactoryAPIResponse` (millisecond-epoch period bounds plus the
usage summary). -/
structure FactoryAPIResponse where
  startDate : ℤ
  endDate : ℤ
  standard : StandardUsage
deriving DecidableEq, Repr

/-- The observable outcome of the HTTPS GET issued by the fetcher: a
transport failure, or a response with a status code and a body whose JSON
decoding either succeeds or fails. -/
inductive HTTPOutcome where
  | transportError (msg : String)
  | response (statusCode : ℕ) (body : Except String FactoryAPIResponse)
deriving Repr

/-- The `formatDate` closure in `fetchUsageFromAPI`: a zero millisecond
timestamp renders as `"N/A"`, otherwise the second-resolution instant
`timestamp/1000` is rendered by the calendar formatter, abstracted as
`render`. -/
def formatDate (render : ℤ → String) (timestamp : ℤ) : String :=
  if timestamp = 0 then "N/A" else render (timestamp / 1000)

/-- `WorkerPool.fetchUsageFromAPI` (worker_pool.go): transport failure or
decode failure yields a Go error; a non-200 status yields a record whose
only populated fields are the identifier and the status error string; a
200 response yields the parsed record with the masked credential,
`remaining = allowance − used` and the current instant. -/
def fetchUsageFromAPI (render : ℤ → String) (now : ℤ) (id apiKey : String)
    (resp : HTTPOutcome) : Except String Usage :=
  match resp with
  | HTTPOutcome.transportError msg => Except.error ("API request failed: " ++ msg)
  | HTTPOutcome.response code body =>
    if code ≠ 200 then
      Except.ok (errorUsage id ("HTTP " ++ toString code))
    else
      match body with
      | Except.error msg => Except.error ("failed to decode response: " ++ msg)
      | Except.ok apiResp =>
        Except.ok
          ⟨id, fetchMask apiKey,
           formatDate render apiResp.startDate,
           formatDate render apiResp.endDate,
           apiResp.standard.totalAllowance,
           apiResp.standard.orgTotalTokensUsed,
           apiResp.standard.totalAllowance - apiResp.standard.orgTotalTokensUsed,
           apiResp.standard.ratioUsed,
           now, ""⟩

/-! ### Worker pool and batch coordinator (worker_pool.go) -/

/-- How `BatchProcess` managed to submit one task: accepted by the
non-blocking first attempt, accepted by the single retry after the brief
sleep, or rejected by both (queue full). -/
inductive SubmitOutcome where
  | first
  | retry
  | fail
deriving DecidableEq, Repr

/-- `time.Sleep(10 * time.Millisecond)`: the pause before the single
resubmission attempt, in milliseconds. -/
def retrySleepMillis : ℕ := 10

/-- The submission logic of `BatchProcess` for one task, driven by a
`space` oracle telling whether the bounded task queue had room at attempt
0 (the non-blocking send) and attempt 1 (the retry after the sleep).  Only
attempts 0 and 1 are ever consulted: the retry happens exactly once. -/
def submitOutcome (space : ℕ → ℕ → Bool) (i : ℕ) : SubmitOutcome :=
  if space i 0 then SubmitOutcome.first
  else if space i 1 then SubmitOutcome.retry
  else SubmitOutcome.fail

/-- The outcome a worker's `processTask` produces for one task: either a
usage record (`Result.Error == nil`, covering both genuine data and the
HTTP-status error records) or a Go error string (transport or decode
failure). -/
inductive FetchOutcome where
  | success (u : Usage)
  | failure (msg : String)
deriving DecidableEq, Repr

/-- `services.Result`: a task identifier together with its outcome. -/
structure TaskResult where
  id : String
  outcome : FetchOutcome
deriving DecidableEq, Repr

/-- `WorkerPool.processTask`: run the fetcher and pair the outcome with
the task identifier. -/
def processTask (render : ℤ → String) (now : ℤ) (id apiKey : String)
    (resp : HTTPOutcome) : TaskResult :=
  match fetchUsageFromAPI render now id apiKey resp with
  | Except.ok u => ⟨id, FetchOutcome.success u⟩
  | Except.error msg => ⟨id, FetchOutcome.failure msg⟩

/-- What the collector goroutine of `BatchProcess` stores in `resultMap`
for one drained `Result`: the usage itself when `Error == nil`, otherwise
a fresh record carrying the error string. -/
def recordOf (r : TaskResult) : Usage :=
  match r.outcome with
  | FetchOutcome.success u => u
  | FetchOutcome.failure msg => errorUsage r.id msg

/-- The empty `resultMap`. -/
def emptyMap : String → Option Usage := fun _ => none

/-- Go map assignment `m[k] = v`. -/
def mapSet (m : String → Option Usage) (k : String) (v : Usage) :
    String → Option Usage :=
  fun x => if x = k then some v else m x

/-- The collector goroutine: fold the stream of `Result`s sent on
`resultChan`, in channel order, into `resultMap` (later writes win). -/
def collectResults (events : List TaskResult) : String → Option Usage :=
  events.foldl (fun m r => mapSet m r.id (recordOf r)) emptyMap

/-- The `QueueFull` placeholder results produced during the submission
loop: the `i`-th key (index offset `n`) whose two submission attempts both
found the queue full is recorded as `fmt.Errorf("task queue full")` on
`resultChan`, in key order, without ever reaching a worker. -/
def submitEvents (sub : ℕ → SubmitOutcome) (n : ℕ) :
    List APIKey → List TaskResult
  | [] => []
  | k :: rest =>
    if sub n = SubmitOutcome.fail then
      ⟨k.id, FetchOutcome.failure "task queue full"⟩ :: submitEvents sub (n + 1) rest
    else submitEvents sub (n + 1) rest

/-- The results drained from the pool's result queue before the deadline,
in completion order: `arrivals` lists the indices of the tasks whose
fetches completed in time, and each contributes the fetcher's outcome for
that key. -/
def arrivalEvents (keys : List APIKey) (fetch : APIKey → FetchOutcome) :
    List ℕ → List TaskResult
  | [] => []
  | i :: rest =>
    match keys[i]? with
    | some k => ⟨k.id, fetch k⟩ :: arrivalEvents keys fetch rest
    | none => arrivalEvents keys fetch rest

/-- Everything sent on `resultChan` during one `BatchProcess` call: the
queue-full placeholders (submission loop, key order) followed by the
drained results (collection loop, completion order). -/
def batchEvents (keys : List APIKey) (sub : ℕ → SubmitOutcome)
    (fetch : APIKey → FetchOutcome) (arrivals : List ℕ) : List TaskResult :=
  submitEvents sub 0 keys ++ arrivalEvents keys fetch arrivals

/-- One nanosecond count per second (`time.Second`). -/
def nsPerSecond : ℕ := 1000000000

/-- The dynamic deadline of `BatchProcess`:
`30*time.Second + time.Duration(len(keys)/wp.maxWorkers)*2*time.Second`,
capped at `5*time.Minute`; `m / workerCount` is Go integer division. -/
def computeTimeout (m workerCount : ℕ) : ℕ :=
  let t := 30 * nsPerSecond + (m / workerCount) * (2 * nsPerSecond)
  if t > 300 * nsPerSecond then 300 * nsPerSecond else t

/-- `WorkerPool.BatchProcess` (worker_pool.go): an empty key list returns
immediately; otherwise the queue-full placeholders and the results that
arrived before the deadline are collected into `resultMap`, and a stable
pass over the input list emits, per key, its mapped record or a
`"Processing timeout"` placeholder.  The second component is the Go
`error` return, which is always `nil`. -/
def BatchProcess (keys : List APIKey) (sub : ℕ → SubmitOutcome)
    (fetch : APIKey → FetchOutcome) (arrivals : List ℕ) :
    List Usage × Option String :=
  if keys = [] then ([], none)
  else
    let m := collectResults (batchEvents keys sub fetch arrivals)
    (keys.map fun k =>
      match m k.id with
      | some u => u
      | none => errorUsage k.id "Processing timeout",
     none)

/-! ### Cache-aware aggregator (api_key_service) -/

/-- The cache test of `GetAggregatedData` for one key: a usage record is
present (`err == nil && usage != nil`) and `time.Since(usage.LastUpdated)
< s.cacheTTL`. -/
def isFreshCache (cache : String → Option Usage) (now ttl : ℤ)
    (k : APIKey) : Bool :=
  match cache k.id with
  | some u => decide (now - u.lastUpdated < ttl)
  | none => false

/-- The `cachedResults` list of `GetAggregatedData`: the cached records of
the keys that pass the freshness test, in input order. -/
def cachedResults (keys : List APIKey) (cache : String → Option Usage)
    (now ttl : ℤ) : List Usage :=
  keys.filterMap fun k =>
    match cache k.id with
    | some u => if now - u.lastUpdated < ttl then some u else none
    | none => none

/-- The `uncachedKeys` list of `GetAggregatedData`: every key that fails
the freshness test, in input order; exactly these are passed to
`BatchProcess`. -/
def uncachedKeys (keys : List APIKey) (cache : String → Option Usage)
    (now ttl : ℤ) : List APIKey :=
  keys.filter fun k => !(isFreshCache cache now ttl k)

/-- The conversion `models.Usage → storage.Usage` in the write-back loop:
the named fields are copied, the credential field disappears and the
error field is not copied (Go zero value). -/
def toStorage (u : Usage) : Usage :=
  ⟨u.id, "", u.startDate, u.endDate, u.totalAllowance, u.orgTotalUsed,
   u.remaining, u.ratioUsed, u.lastUpdated, ""⟩

/-- The `validResults` list of `GetAggregatedData`: the freshly fetched
records with an empty error field, converted for storage. -/
def validResults (fresh : List Usage) : List Usage :=
  fresh.filterMap fun u => if u.error = "" then some (toStorage u) else none

/-- `Storage.BatchSaveUsage`: one pipelined write per record, keyed by the
record identifier (last write wins). -/
def batchSaveUsage (cache : String → Option Usage) (usages : List Usage) :
    String → Option Usage :=
  usages.foldl (fun c u => fun x => if x = u.id then some u else c x) cache

/-- The totals loop of `GetAggregatedData`: fold over `allResults`, adding
the used amount and the allowance of exactly the records whose error field
is empty. -/
def computeTotals (l : List Usage) : Totals :=
  l.foldl
    (fun t u =>
      if u.error = "" then
        ⟨t.totalOrgTotalTokensUsed + u.orgTotalUsed,
         t.totalAllowance + u.totalAllowance⟩
      else t)
    ⟨0, 0⟩

/-- `APIKeyService.GetAggregatedData`: partition the keys by cache
freshness, fetch the rest through `BatchProcess`, write the error-free
fresh records back (modelled by `validResults`/`batchSaveUsage`, whose
effect on the store is proved separately), concatenate cached then fresh
records, and total the error-free ones. -/
def GetAggregatedData (keys : List APIKey) (cache : String → Option Usage)
    (now ttl : ℤ) (sub : ℕ → SubmitOutcome) (fetch : APIKey → FetchOutcome)
    (arrivals : List ℕ) : AggregatedData :=
  if keys = [] then ⟨now, 0, ⟨0, 0⟩, []⟩
  else
    let cached := cachedResults keys cache now ttl
    let uncached := uncachedKeys keys cache now ttl
    let fresh :=
      if uncached = [] then []
      else (BatchProcess uncached sub fetch arrivals).1
    let allResults := cached ++ fresh
    ⟨now, keys.length, computeTotals allResults, allResults⟩

/-! ### Key import (api_key_service) -/

/-- The loop body of `APIKeyService.ImportKeys` over the input list:
`seen` is `existingMap` (the stored credentials plus the credentials
successfully saved earlier in this batch), `saveOk i` tells whether
`SaveAPIKey` succeeds for the entry at input position `i`.  A
whitespace-only entry is skipped; a credential already in `seen` counts as
a duplicate; otherwise the save outcome decides between success (which
adds the credential to `seen`) and failure.
`addSuccess`/`addFailed`/`addDup` are the counter increments
`result.Success++` etc. -/
def addSuccess (r : ImportResult) : ImportResult :=
  ⟨r.success + 1, r.failed, r.duplicates⟩

/-- `result.Failed++`. -/
def addFailed (r : ImportResult) : ImportResult :=
  ⟨r.success, r.failed + 1, r.duplicates⟩

/-- `result.Duplicates++`. -/
def addDup (r : ImportResult) : ImportResult :=
  ⟨r.success, r.failed, r.duplicates + 1⟩

def importLoop (seen : String → Bool) (saveOk : ℕ → Bool) (i : ℕ) :
    List String → ImportResult
  | [] => ⟨0, 0, 0⟩
  | s :: rest =>
    if trimSpace s = "" then importLoop seen saveOk (i + 1) rest
    else if seen (trimSpace s) then
      addDup (importLoop seen saveOk (i + 1) rest)
    else if saveOk i then
      addSuccess
        (importLoop (fun x => if x = trimSpace s then true else seen x) saveOk (i + 1) rest)
    else
      addFailed (importLoop seen saveOk (i + 1) rest)

/-- `APIKeyService.ImportKeys`: run the import loop against the credential
strings already in the store. -/
def ImportKeys (existing : List String) (saveOk : ℕ → Bool)
    (inputs : List String) : ImportResult :=
  importLoop (fun x => existing.contains x) saveOk 0 inputs

/-- The sum of the three counters of an `ImportResult`. -/
def countsTotal (r : ImportResult) : ℕ :=
  r.success + r.failed + r.duplicates

/-! ### Helper lemmas about the collector map -/

theorem foldl_mapSet_lookup (events : List TaskResult)
    (m0 : String → Option Usage) (x : String) :
    (events.foldl (fun m r => mapSet m r.id (recordOf r)) m0) x =
      (match (events.filter fun r => r.id == x).getLast? with
       | some r => some (recordOf r)
       | none => m0 x) := by
  induction events generalizing m0 with
  | nil => rfl
  | cons e es ih =>
    rw [List.foldl_cons, ih, List.filter_cons]
    by_cases he : e.id = x
    · simp only [he, beq_self_eq_true, if_pos]
      cases hf : (es.filter fun r => r.id == x) with
      | nil => simp [mapSet, he]
      | cons f fs =>
        rw [List.getLast?_cons_cons]
        cases hg : (f :: fs).getLast? with
        | none => exact absurd (List.getLast?_eq_none_iff.mp hg) (by simp)
        | some r => rfl
    · have hbe : (e.id == x) = false := beq_eq_false_iff_ne.mpr he
      simp only [hbe, Bool.false_eq_true, if_neg, reduceCtorEq]
      cases hf : (es.filter fun r => r.id == x) with
      | nil =>
        have hxe : ¬x = e.id := fun h => he h.symm
        simp [mapSet, hxe]
      | cons f fs => rfl

theorem collectResults_lookup (events : List TaskResult) (x : String) :
    collectResults events x =
      (match (events.filter fun r => r.id == x).getLast? with
       | some r => some (recordOf r)
       | none => none) :=
  foldl_mapSet_lookup events emptyMap x

theorem collectResults_id (events : List TaskResult)
    (h : ∀ r ∈ events, (recordOf r).id = r.id) (x : String) (u : Usage) :
    collectResults events x = some u → u.id = x := by
  intro hu
  rw [collectResults_lookup] at hu
  cases hf : (events.filter fun r => r.id == x).getLast? with
  | none => rw [hf] at hu; exact absurd hu (by simp)
  | some r =>
    rw [hf] at hu
    have hmem : r ∈ events.filter fun r => r.id == x := by
      obtain ⟨ys, hys⟩ := List.getLast?_eq_some_iff.mp hf
      rw [hys]
      exact List.mem_append_right ys (List.mem_singleton_self r)
    have h1 : r ∈ events := (List.mem_filter.mp hmem).1
    have h2 : (r.id == x) = true := (List.mem_filter.mp hmem).2
    have h3 : r.id = x := beq_iff_eq.mp h2
    have hur : u = recordOf r := by injection hu.symm
    rw [hur, h r h1, h3]

theorem mem_submitEvents (sub : ℕ → SubmitOutcome) (keys : List APIKey)
    (r : TaskResult) :
    ∀ n, r ∈ submitEvents sub n keys →
      ∃ k ∈ keys, r = ⟨k.id, FetchOutcome.failure "task queue full"⟩ := by
  induction keys with
  | nil => intro n hr; exact absurd hr (by simp [submitEvents])
  | cons k rest ih =>
    intro n hr
    rw [submitEvents] at hr
    by_cases hs : sub n = SubmitOutcome.fail
    · rw [if_pos hs] at hr
      rcases List.mem_cons.mp hr with h | h
      · exact ⟨k, List.mem_cons_self k rest, h⟩
      · obtain ⟨k2, hk2, he⟩ := ih (n + 1) h
        exact ⟨k2, List.mem_cons_of_mem k hk2, he⟩
    · rw [if_neg hs] at hr
      obtain ⟨k2, hk2, he⟩ := ih (n + 1) hr
      exact ⟨k2, List.mem_cons_of_mem k hk2, he⟩

theorem mem_arrivalEvents (keys : List APIKey) (fetch : APIKey → FetchOutcome)
    (arrivals : List ℕ) (r : TaskResult) :
    r ∈ arrivalEvents keys fetch arrivals →
      ∃ k ∈ keys, r = ⟨k.id, fetch k⟩ := by
  induction arrivals with
  | nil => intro hr; exact absurd hr (by simp [arrivalEvents])
  | cons i rest ih =>
    intro hr
    rw [arrivalEvents] at hr
    cases hk : keys[i]? with
    | none => rw [hk] at hr; exact ih hr
    | some k =>
      rw [hk] at hr
      rcases List.mem_cons.mp hr with h | h
      · exact ⟨k, List.getElem?_mem hk, h⟩
      · exact ih h

theorem batchEvents_record_id (keys : List APIKey) (sub : ℕ → SubmitOutcome)
    (fetch : APIKey → FetchOutcome) (arrivals : List ℕ)
    (hfetch : ∀ k u, fetch k = FetchOutcome.success u → u.id = k.id) :
    ∀ r ∈ batchEvents keys sub fetch arrivals, (recordOf r).id = r.id := by
  intro r hr
  rcases List.mem_append.mp hr with h | h
  · obtain ⟨k, _, he⟩ := mem_submitEvents sub keys r 0 h
    rw [he]; rfl
  · obtain ⟨k, _, he⟩ := mem_arrivalEvents keys fetch arrivals r h
    rw [he]
    cases hf : fetch k with
    | success u => simp [recordOf, hf, hfetch k u hf]
    | failure msg => rfl

theorem batch_len (keys : List APIKey) (sub : ℕ → SubmitOutcome)
    (fetch : APIKey → FetchOutcome) (arrivals : List ℕ) :
    (BatchProcess keys sub fetch arrivals).1.length = keys.length := by
  by_cases h : keys = []
  · rw [h]; rfl
  · simp [BatchProcess, h]

theorem batch_ids (keys : List APIKey) (sub : ℕ → SubmitOutcome)
    (fetch : APIKey → FetchOutcome) (arrivals : List ℕ)
    (hfetch : ∀ k u, fetch k = FetchOutcome.success u → u.id = k.id) :
    (BatchProcess keys sub fetch arrivals).1.map Usage.id =
      keys.map APIKey.id := by
  by_cases h : keys = []
  · rw [h]; rfl
  · rw [BatchProcess, if_neg h]
    simp only [List.map_map]
    refine List.map_congr_left fun k _ => ?_
    simp only [Function.comp_apply]
    cases hm : collectResults (batchEvents keys sub fetch arrivals) k.id with
    | none => rfl
    | some u =>
      exact collectResults_id _ (batchEvents_record_id keys sub fetch arrivals hfetch)
        k.id u hm

theorem batch_snd (keys : List APIKey) (sub : ℕ → SubmitOutcome)
    (fetch : APIKey → FetchOutcome) (arrivals : List ℕ) :
    (BatchProcess keys sub fetch arrivals).2 = none := by
  by_cases h : keys = []
  · rw [h]; rfl
  · rw [BatchProcess, if_neg h]

theorem filter_submitEvents_nil (sub : ℕ → SubmitOutcome) (keys : List APIKey)
    (x : String) (hx : ∀ k ∈ keys, k.id ≠ x) :
    ∀ n, (submitEvents sub n keys).filter (fun r => r.id == x) = [] := by
  induction keys with
  | nil => intro n; rfl
  | cons k rest ih =>
    intro n
    rw [submitEvents]
    have hk : (k.id == x) = false :=
      beq_eq_false_iff_ne.mpr (hx k (List.mem_cons_self k rest))
    have hrest := ih (fun k2 hk2 => hx k2 (List.mem_cons_of_mem k hk2)) (n + 1)
    by_cases hs : sub n = SubmitOutcome.fail
    · rw [if_pos hs, List.filter_cons]
      simp only [hk, Bool.false_eq_true, if_neg, reduceCtorEq]
      exact hrest
    · rw [if_neg hs]
      exact hrest

theorem nodup_id_inj (keys : List APIKey) (hids : (keys.map APIKey.id).Nodup)
    (i j : ℕ) (hi : i < keys.length) (hj : j < keys.length)
    (h : keys[i].id = keys[j].id) : i = j := by
  have hmi : i < (keys.map APIKey.id).length := by simpa using hi
  have hmj : j < (keys.map APIKey.id).length := by simpa using hj
  have h1 : (keys.map APIKey.id)[i] = (keys.map APIKey.id)[j] := by
    simpa using h
  exact (List.Nodup.getElem_inj_iff hids).mp h1

theorem filter_submitEvents (sub : ℕ → SubmitOutcome) (keys : List APIKey)
    (hids : (keys.map APIKey.id).Nodup) (i : ℕ) (hi : i < keys.length) :
    ∀ n, (submitEvents sub n keys).filter (fun r => r.id == keys[i].id) =
      (if sub (n + i) = SubmitOutcome.fail then
        [⟨keys[i].id, FetchOutcome.failure "task queue full"⟩] else []) := by
  induction keys generalizing i with
  | nil => exact absurd hi (by simp)
  | cons k rest ih =>
    intro n
    have hni : k.id ∉ rest.map APIKey.id := by
      rw [List.map_cons, List.nodup_cons] at hids
      exact hids.1
    cases i with
    | zero =>
      have hx : ∀ k2 ∈ rest, k2.id ≠ k.id := by
        intro k2 hk2 he
        exact hni (he ▸ List.mem_map_of_mem APIKey.id hk2)
      have h0 : (k :: rest)[0] = k := rfl
      rw [h0, submitEvents]
      by_cases hs : sub n = SubmitOutcome.fail
      · rw [if_pos hs, List.filter_cons]
        rw [filter_submitEvents_nil sub rest _ hx (n + 1)]
        simp [hs]
      · rw [if_neg hs, filter_submitEvents_nil sub rest _ hx (n + 1)]
        simp [hs]
    | succ j =>
      have hj : j < rest.length := by
        simpa [List.length_cons, Nat.succ_lt_succ_iff] using hi
      have hrest : (rest.map APIKey.id).Nodup := by
        rw [List.map_cons, List.nodup_cons] at hids
        exact hids.2
      have hgx : (k :: rest)[j + 1] = rest[j] := by simp
      have hkx : (k.id == rest[j].id) = false := by
        refine beq_eq_false_iff_ne.mpr fun he => hni ?_
        exact he ▸ List.mem_map_of_mem APIKey.id (List.getElem_mem hj)
      have harith : n + 1 + j = n + (j + 1) := by omega
      rw [hgx, submitEvents]
      by_cases hs : sub n = SubmitOutcome.fail
      · rw [if_pos hs, List.filter_cons]
        rw [ih hrest j hj (n + 1), harith]
        simp [hkx]
      · rw [if_neg hs, ih hrest j hj (n + 1), harith]

theorem filter_arrivalEvents (keys : List APIKey) (fetch : APIKey → FetchOutcome)
    (arrivals : List ℕ) (hids : (keys.map APIKey.id).Nodup)
    (i : ℕ) (hi : i < keys.length) :
    (arrivalEvents keys fetch arrivals).filter (fun r => r.id == keys[i].id) =
      List.replicate (arrivals.count i) ⟨keys[i].id, fetch keys[i]⟩ := by
  induction arrivals with
  | nil => rfl
  | cons j rest ih =>
    rw [arrivalEvents]
    by_cases hji : j = i
    · subst hji
      have hg : keys[j]? = some keys[j] := List.getElem?_eq_getElem hi
      rw [hg, List.filter_cons]
      simp only [beq_self_eq_true, if_pos]
      rw [ih, List.count_cons_self, List.replicate_succ]
    · have hij : i ≠ j := fun h => hji h.symm
      cases hk : keys[j]? with
      | none =>
        rw [ih, List.count_cons_of_ne hij rest]
      | some kj =>
        have hjlen : j < keys.length := (List.getElem?_eq_some_iff.mp hk).1
        have hkj : kj = keys[j] := ((List.getElem?_eq_some_iff.mp hk).2).symm
        have hne : (kj.id == keys[i].id) = false := by
          refine beq_eq_false_iff_ne.mpr fun he => hji ?_
          exact nodup_id_inj keys hids j i hjlen hi (hkj ▸ he)
        rw [List.filter_cons]
        rw [ih, List.count_cons_of_ne hij rest]
        simp [hne]

theorem getLast?_append_replicate (l : List TaskResult) (e : TaskResult) :
    ∀ c : ℕ, 0 < c → (l ++ List.replicate c e).getLast? = some e := by
  intro c hc
  cases c with
  | zero => exact absurd hc (by omega)
  | succ n =>
    rw [List.replicate_succ' n e, ← List.append_assoc]
    exact List.getLast?_concat _

theorem batch_lookup (keys : List APIKey) (sub : ℕ → SubmitOutcome)
    (fetch : APIKey → FetchOutcome) (arrivals : List ℕ)
    (hids : (keys.map APIKey.id).Nodup)
    (hwf : ∀ j ∈ arrivals, sub j ≠ SubmitOutcome.fail)
    (i : ℕ) (hi : i < keys.length) :
    collectResults (batchEvents keys sub fetch arrivals) keys[i].id =
      (if sub i = SubmitOutcome.fail then
        some (errorUsage keys[i].id "task queue full")
      else if i ∈ arrivals then
        some (recordOf ⟨keys[i].id, fetch keys[i]⟩)
      else none) := by
  rw [collectResults_lookup, batchEvents, List.filter_append]
  have hsub := filter_submitEvents sub keys hids i hi 0
  rw [Nat.zero_add] at hsub
  rw [hsub, filter_arrivalEvents keys fetch arrivals hids i hi]
  by_cases hs : sub i = SubmitOutcome.fail
  · have harr : i ∉ arrivals := fun h => hwf i h hs
    have hc : arrivals.count i = 0 := List.count_eq_zero.mpr harr
    rw [if_pos hs, hc, List.replicate_zero, List.append_nil, if_pos hs]
    rfl
  · rw [if_neg hs, if_neg hs, List.nil_append]
    by_cases ha : i ∈ arrivals
    · have hc : 0 < arrivals.count i := List.count_pos_iff.mpr ha
      rw [if_pos ha]
      have := getLast?_append_replicate [] ⟨keys[i].id, fetch keys[i]⟩
        (arrivals.count i) hc
      rw [List.nil_append] at this
      rw [this]
    · have hc : arrivals.count i = 0 := List.count_eq_zero.mpr ha
      rw [if_neg ha, hc, List.replicate_zero]
      rfl

theorem batch_get (keys : List APIKey) (sub : ℕ → SubmitOutcome)
    (fetch : APIKey → FetchOutcome) (arrivals : List ℕ)
    (i : ℕ) (hi : i < keys.length) :
    (BatchProcess keys sub fetch arrivals).1[i]? =
      some (match collectResults (batchEvents keys sub fetch arrivals) keys[i].id with
            | some u => u
            | none => errorUsage keys[i].id "Processing timeout") := by
  have hne : keys ≠ [] := by
    intro h
    rw [h] at hi
    exact absurd hi (by simp)
  rw [BatchProcess, if_neg hne]
  simp only [List.getElem?_map, List.getElem?_eq_getElem hi, Option.map_some]
  rfl

/-! ### Helper lemmas about the aggregator -/

theorem cachedResults_map_id (keys : List APIKey) (cache : String → Option Usage)
    (now ttl : ℤ) (hcache : ∀ x u, cache x = some u → u.id = x) :
    (cachedResults keys cache now ttl).map Usage.id =
      (keys.filter (isFreshCache cache now ttl)).map APIKey.id := by
  induction keys with
  | nil => rfl
  | cons k rest ih =>
    rw [cachedResults, List.filterMap_cons, List.filter_cons]
    rw [cachedResults] at ih
    cases hc : cache k.id with
    | none =>
      have hf : isFreshCache cache now ttl k = false := by
        rw [isFreshCache, hc]
      rw [hf]
      simpa using ih
    | some u =>
      by_cases hlt : now - u.lastUpdated < ttl
      · have hf : isFreshCache cache now ttl k = true := by
          rw [isFreshCache, hc]
          simpa using hlt
        simp only [hf, if_pos hlt, List.map_cons, if_true]
        rw [ih, hcache k.id u hc]
      · have hf : isFreshCache cache now ttl k = false := by
          rw [isFreshCache, hc]
          simpa using hlt
        simp only [hf, if_neg hlt, Bool.false_eq_true, if_false]
        exact ih

theorem computeTotals_foldl (l : List Usage) :
    ∀ t : Totals,
      l.foldl
        (fun t u =>
          if u.error = "" then
            (⟨t.totalOrgTotalTokensUsed + u.orgTotalUsed,
              t.totalAllowance + u.totalAllowance⟩ : Totals)
          else t) t =
      ⟨t.totalOrgTotalTokensUsed +
         ((l.filter fun u => decide (u.error = "")).map Usage.orgTotalUsed).sum,
       t.totalAllowance +
         ((l.filter fun u => decide (u.error = "")).map Usage.totalAllowance).sum⟩ := by
  induction l with
  | nil => intro t; simp
  | cons u rest ih =>
    intro t
    rw [List.foldl_cons, List.filter_cons]
    by_cases he : u.error = ""
    · simp only [he, decide_True, decide_eq_true_eq, if_true, List.map_cons,
        List.sum_cons]
      rw [ih]
      have h1 : t.totalOrgTotalTokensUsed + u.orgTotalUsed +
          ((rest.filter fun u => decide (u.error = "")).map Usage.orgTotalUsed).sum =
          t.totalOrgTotalTokensUsed + (u.orgTotalUsed +
          ((rest.filter fun u => decide (u.error = "")).map Usage.orgTotalUsed).sum) := by
        ring
      have h2 : t.totalAllowance + u.totalAllowance +
          ((rest.filter fun u => decide (u.error = "")).map Usage.totalAllowance).sum =
          t.totalAllowance + (u.totalAllowance +
          ((rest.filter fun u => decide (u.error = "")).map Usage.totalAllowance).sum) := by
        ring
      rw [h1, h2]
    · simp only [decide_eq_true_eq, if_neg he]
      exact ih t

theorem computeTotals_eq (l : List Usage) :
    computeTotals l =
      ⟨((l.filter fun u => decide (u.error = "")).map Usage.orgTotalUsed).sum,
       ((l.filter fun u => decide (u.error = "")).map Usage.totalAllowance).sum⟩ := by
  rw [computeTotals, computeTotals_foldl]
  simp

/-! ### Helper lemmas about the importer -/

theorem countsTotal_addSuccess (r : ImportResult) :
    countsTotal (addSuccess r) = countsTotal r + 1 := by
  simp only [countsTotal, addSuccess]
  omega

theorem countsTotal_addFailed (r : ImportResult) :
    countsTotal (addFailed r) = countsTotal r + 1 := by
  simp only [countsTotal, addFailed]
  omega

theorem countsTotal_addDup (r : ImportResult) :
    countsTotal (addDup r) = countsTotal r + 1 := by
  simp only [countsTotal, addDup]
  omega

theorem importLoop_total (inputs : List String) :
    ∀ (seen : String → Bool) (saveOk : ℕ → Bool) (i : ℕ),
      countsTotal (importLoop seen saveOk i inputs) =
        inputs.countP fun s => !(trimSpace s == "") := by
  induction inputs with
  | nil => intro seen saveOk i; rfl
  | cons s rest ih =>
    intro seen saveOk i
    rw [importLoop, List.countP_cons]
    by_cases hb : trimSpace s = ""
    · rw [if_pos hb, ih seen saveOk (i + 1)]
      simp [hb]
    · have hbeq : (!(trimSpace s == "")) = true := by simpa using hb
      rw [if_neg hb, hbeq, if_pos (rfl : (true : Bool) = true)]
      by_cases hsn : seen (trimSpace s) = true
      · rw [if_pos hsn, countsTotal_addDup, ih seen saveOk (i + 1)]
      · rw [if_neg hsn]
        by_cases hso : saveOk i = true
        · rw [if_pos hso, countsTotal_addSuccess, ih _ saveOk (i + 1)]
        · rw [if_neg hso, countsTotal_addFailed, ih seen saveOk (i + 1)]

/-! ### Claim theorems -/

/-- Claim C4: for a batch of `m` keys on a pool of `workerCount` workers,
the collection deadline equals `30 s + (m / workerCount) * 2 s` capped at
5 minutes, hence is always at least 30 seconds and at most 5 minutes
(`m / workerCount` is Go integer division; a pool has a positive worker
count). -/
theorem C4_dynamic_deadline (m workerCount : ℕ) (hw : 0 < workerCount) :
    computeTimeout m workerCount =
      min (30 * nsPerSecond + (m / workerCount) * (2 * nsPerSecond))
        (300 * nsPerSecond) ∧
    30 * nsPerSecond ≤ computeTimeout m workerCount ∧
    computeTimeout m workerCount ≤ 300 * nsPerSecond := by
  rw [computeTimeout]
  simp only [nsPerSecond]
  generalize m / workerCount = q
  split <;> refine ⟨?_, ?_, ?_⟩ <;> omega

/-- Witness for C4 at `m = 1000`, `workerCount = 100`:
the deadline is 30 s + 10 · 2 s = 50 s. -/
theorem C4_dynamic_deadline_witness :
    (0 : ℕ) < 100 ∧
    computeTimeout 1000 100 =
      min (30 * nsPerSecond + (1000 / 100) * (2 * nsPerSecond))
        (300 * nsPerSecond) ∧
    30 * nsPerSecond ≤ computeTimeout 1000 100 ∧
    computeTimeout 1000 100 ≤ 300 * nsPerSecond :=
  ⟨by decide, C4_dynamic_deadline 1000 100 (by decide)⟩

/-- Claim C7: the report's totals equal the sums of the used amount and of
the allowance over exactly the records of the report whose error field is
empty, for every input and every scheduling of the fetches. -/
theorem C7_totals_error_free (keys : List APIKey) (cache : String → Option Usage)
    (now ttl : ℤ) (sub : ℕ → SubmitOutcome) (fetch : APIKey → FetchOutcome)
    (arrivals : List ℕ) :
    (GetAggregatedData keys cache now ttl sub fetch arrivals).totals =
      ⟨(((GetAggregatedData keys cache now ttl sub fetch arrivals).data.filter
          fun u => decide (u.error = "")).map Usage.orgTotalUsed).sum,
       (((GetAggregatedData keys cache now ttl sub fetch arrivals).data.filter
          fun u => decide (u.error = "")).map Usage.totalAllowance).sum⟩ := by
  by_cases h : keys = []
  · rw [GetAggregatedData, if_pos h]
    simp
  · rw [GetAggregatedData, if_neg h]
    simp only
    exact computeTotals_eq _

/-- Claim C8: importing `["A", "A", "B"]` into an empty store with the
storage succeeding yields 2 successes, 0 failures, 1 duplicate; in
general a non-blank entry whose trimmed credential is already in the seen
set (stored keys plus earlier successful imports of the batch) increments
only the duplicate counter. -/
theorem C8_import_duplicates :
    ImportKeys [] (fun _ => true) ["A", "A", "B"] = ⟨2, 0, 1⟩ ∧
    (∀ (seen : String → Bool) (saveOk : ℕ → Bool) (i : ℕ) (s : String)
      (rest : List String), trimSpace s ≠ "" → seen (trimSpace s) = true →
      importLoop seen saveOk i (s :: rest) =
        addDup (importLoop seen saveOk (i + 1) rest)) := by
  refine ⟨by decide, fun seen saveOk i s rest h1 h2 => ?_⟩
  rw [importLoop, if_neg h1, if_pos h2]

/-- Witness for C8: the duplicate step at the concrete entry `"A"` with
`"A"` already seen. -/
theorem C8_import_duplicates_witness :
    trimSpace "A" ≠ "" ∧ (fun x : String => x == "A") (trimSpace "A") = true ∧
    importLoop (fun x : String => x == "A") (fun _ => true) 1 ["A", "B"] =
      addDup (importLoop (fun x : String => x == "A") (fun _ => true) 2 ["B"]) := by
  refine ⟨by decide, by decide, ?_⟩
  exact C8_import_duplicates.2 (fun x => x == "A") (fun _ => true) 1 "A" ["B"]
    (by decide) (by decide)

/-- Claim C10: the three import counters sum to the number of entries that
are non-blank after trimming, so blank entries increment nothing and the
sum can be strictly smaller than the input length (concretely for
`[" ", "A"]`). -/
theorem C10_blank_entries_skipped :
    (∀ (existing : List String) (saveOk : ℕ → Bool) (inputs : List String),
      countsTotal (ImportKeys existing saveOk inputs) =
        inputs.countP fun s => !(trimSpace s == "")) ∧
    ImportKeys [] (fun _ => true) [" ", "A"] = ⟨1, 0, 0⟩ ∧
    countsTotal ⟨1, 0, 0⟩ < ([" ", "A"] : List String).length := by
  refine ⟨fun existing saveOk inputs => ?_, by decide, by decide⟩
  rw [ImportKeys]
  exact importLoop_total inputs _ saveOk 0

theorem validResults_error_free (fresh : List Usage) :
    ∀ u ∈ validResults fresh, u.error = "" := by
  intro u hu
  rw [validResults] at hu
  obtain ⟨v, hv, he⟩ := List.mem_filterMap.mp hu
  by_cases hve : v.error = ""
  · rw [if_pos hve] at he
    cases he
    rfl
  · rw [if_neg hve] at he
    cases he

theorem batchSave_preserves (l : List Usage) :
    ∀ (cache : String → Option Usage),
      (∀ x u, cache x = some u → u.error = "") →
      (∀ u ∈ l, u.error = "") →
      ∀ x u, batchSaveUsage cache l x = some u → u.error = "" := by
  induction l with
  | nil => intro cache hc hl x u h; exact hc x u h
  | cons v rest ih =>
    intro cache hc hl x u h
    rw [batchSaveUsage, List.foldl_cons] at h
    refine ih _ ?_ (fun w hw => hl w (List.mem_cons_of_mem v hw)) x u h
    intro y w hw
    by_cases hy : y = v.id
    · rw [if_pos hy] at hw
      have hwv : w = v := by injection hw.symm
      rw [hwv]
      exact hl v (List.mem_cons_self v rest)
    · rw [if_neg hy] at hw
      exact hc y w hw

/-- Claim C2 (corrected): `maskKey` returns credentials of length at most
8 unchanged and renders longer ones as `first4...last4`; the masked key
field of a freshly fetched record always has the shape
`first-min(4,len)...last4`, which agrees with `first4...last4` whenever
the length is at least 4 (so in particular for length ≥ 9), but is NOT
the unmasked credential for lengths ≤ 8 (see the counterexample). -/
theorem C2_masking_corrected :
    (∀ s : String, strLen s ≤ 8 → maskKey s = s) ∧
    (∀ s : String, 9 ≤ strLen s →
      maskKey s = strTake s 4 ++ "..." ++ strDrop s (strLen s - 4)) ∧
    (∀ s : String, 4 ≤ strLen s →
      fetchMask s = strTake s 4 ++ "..." ++ strDrop s (strLen s - 4)) ∧
    (∀ (render : ℤ → String) (now : ℤ) (id apiKey : String)
      (apiResp : FactoryAPIResponse),
      (fetchUsageFromAPI render now id apiKey
          (HTTPOutcome.response 200 (Except.ok apiResp))).toOption.map Usage.key =
        some (fetchMask apiKey)) := by
  refine ⟨fun s h => ?_, fun s h => ?_, fun s h => ?_,
    fun render now id apiKey r => ?_⟩
  · rw [maskKey, if_pos h]
  · rw [maskKey, if_neg (by omega)]
  · rw [fetchMask, Nat.min_eq_left h]
  · simp only [fetchUsageFromAPI]
    rw [if_neg (by omega)]
    rfl

/-- Counterexample for C2 as stated: the length-5 credential `"short"`
comes back from a successful fetch with masked key field `"shor...hort"`,
not unchanged. -/
theorem C2_masking_counterexample :
    strLen "short" ≤ 8 ∧
    (fetchUsageFromAPI (fun _ => "") 0 "id1" "short"
        (HTTPOutcome.response 200 (Except.ok ⟨0, 0, ⟨0, 0, 0⟩⟩))).toOption.map
      Usage.key = some "shor...hort" ∧
    "shor...hort" ≠ "short" :=
  ⟨by decide, by decide, by decide⟩

/-- Witness for C2 (corrected) at concrete credentials of lengths 8 and 9
and a concrete successful fetch. -/
theorem C2_masking_witness :
    strLen "abcdefgh" ≤ 8 ∧ maskKey "abcdefgh" = "abcdefgh" ∧
    9 ≤ strLen "abcdefghi" ∧
    maskKey "abcdefghi" =
      strTake "abcdefghi" 4 ++ "..." ++ strDrop "abcdefghi" (strLen "abcdefghi" - 4) ∧
    (fetchUsageFromAPI (fun _ => "") 0 "id" "abcdefghi"
        (HTTPOutcome.response 200 (Except.ok ⟨0, 0, ⟨0, 0, 0⟩⟩))).toOption.map
      Usage.key = some (fetchMask "abcdefghi") :=
  ⟨by decide, C2_masking_corrected.1 "abcdefgh" (by decide), by decide,
    C2_masking_corrected.2.1 "abcdefghi" (by decide),
    C2_masking_corrected.2.2.2 (fun _ => "") 0 "id" "abcdefghi" ⟨0, 0, ⟨0, 0, 0⟩⟩⟩

/-- Claim C6: a key whose cached record satisfies
`now − lastUpdated < ttl` is not among the keys passed to `BatchProcess`
and its cached record is taken into the report; every key without such a
fresh cached record is among the keys passed to `BatchProcess`. -/
theorem C6_cache_freshness_partition (keys : List APIKey)
    (cache : String → Option Usage) (now ttl : ℤ) (sub : ℕ → SubmitOutcome)
    (fetch : APIKey → FetchOutcome) (arrivals : List ℕ) :
    (∀ k ∈ keys, ∀ u, cache k.id = some u → now - u.lastUpdated < ttl →
      k ∉ uncachedKeys keys cache now ttl ∧
      u ∈ cachedResults keys cache now ttl ∧
      u ∈ (GetAggregatedData keys cache now ttl sub fetch arrivals).data) ∧
    (∀ k ∈ keys, (∀ u, cache k.id = some u → ¬(now - u.lastUpdated < ttl)) →
      k ∈ uncachedKeys keys cache now ttl) := by
  constructor
  · intro k hk u hc hlt
    have hfk : isFreshCache cache now ttl k = true := by
      rw [isFreshCache, hc]
      simpa using hlt
    have hmemc : u ∈ cachedResults keys cache now ttl := by
      rw [cachedResults]
      refine List.mem_filterMap.mpr ⟨k, hk, ?_⟩
      rw [hc]
      simp [hlt]
    refine ⟨?_, hmemc, ?_⟩
    · intro hmem
      rw [uncachedKeys, List.mem_filter, hfk] at hmem
      simp at hmem
    · have hne : keys ≠ [] := List.ne_nil_of_mem hk
      rw [GetAggregatedData, if_neg hne]
      simp only
      exact List.mem_append_left _ hmemc
  · intro k hk hstale
    have hfk : isFreshCache cache now ttl k = false := by
      rw [isFreshCache]
      cases hc : cache k.id with
      | none => rfl
      | some u => simpa using hstale u hc
    rw [uncachedKeys, List.mem_filter, hfk]
    exact ⟨hk, rfl⟩

/-- Witness for C6 at one fresh-cached key and one uncached key. -/
theorem C6_cache_freshness_partition_witness :
    ((⟨"id1", "s1", "n1"⟩ : APIKey) ∉ uncachedKeys
        [⟨"id1", "s1", "n1"⟩, ⟨"id2", "s2", "n2"⟩]
        (fun x => if x = "id1" then some (errorUsage "id1" "") else none) 0 1 ∧
      errorUsage "id1" "" ∈ cachedResults
        [⟨"id1", "s1", "n1"⟩, ⟨"id2", "s2", "n2"⟩]
        (fun x => if x = "id1" then some (errorUsage "id1" "") else none) 0 1 ∧
      errorUsage "id1" "" ∈ (GetAggregatedData
        [⟨"id1", "s1", "n1"⟩, ⟨"id2", "s2", "n2"⟩]
        (fun x => if x = "id1" then some (errorUsage "id1" "") else none) 0 1
        (fun _ => SubmitOutcome.first) (fun _ => FetchOutcome.failure "x")
        []).data) ∧
    (⟨"id2", "s2", "n2"⟩ : APIKey) ∈ uncachedKeys
      [⟨"id1", "s1", "n1"⟩, ⟨"id2", "s2", "n2"⟩]
      (fun x => if x = "id1" then some (errorUsage "id1" "") else none) 0 1 := by
  constructor
  · exact (C6_cache_freshness_partition
      [⟨"id1", "s1", "n1"⟩, ⟨"id2", "s2", "n2"⟩]
      (fun x => if x = "id1" then some (errorUsage "id1" "") else none) 0 1
      (fun _ => SubmitOutcome.first) (fun _ => FetchOutcome.failure "x") []).1
      ⟨"id1", "s1", "n1"⟩ (by decide) (errorUsage "id1" "") (by decide) (by decide)
  · exact (C6_cache_freshness_partition
      [⟨"id1", "s1", "n1"⟩, ⟨"id2", "s2", "n2"⟩]
      (fun x => if x = "id1" then some (errorUsage "id1" "") else none) 0 1
      (fun _ => SubmitOutcome.first) (fun _ => FetchOutcome.failure "x") []).2
      ⟨"id2", "s2", "n2"⟩ (by decide)
      (fun u hu => by simp at hu)

/-- Claim C9: every record in the batched cache write `validResults` has
an empty error field; writing them preserves the invariant that every
cached record is error-free; consequently every record read from such a
cache during partitioning is error-free. -/
theorem C9_writeback_error_free (fresh : List Usage)
    (cache : String → Option Usage)
    (hinv : ∀ x u, cache x = some u → u.error = "") :
    (∀ u ∈ validResults fresh, u.error = "") ∧
    (∀ x u, batchSaveUsage cache (validResults fresh) x = some u →
      u.error = "") ∧
    (∀ (keys : List APIKey) (now ttl : ℤ) (u : Usage),
      u ∈ cachedResults keys (batchSaveUsage cache (validResults fresh)) now ttl →
      u.error = "") := by
  have hpres : ∀ x u, batchSaveUsage cache (validResults fresh) x = some u →
      u.error = "" :=
    batchSave_preserves (validResults fresh) cache hinv
      (validResults_error_free fresh)
  refine ⟨validResults_error_free fresh, hpres, ?_⟩
  intro keys now ttl u hu
  rw [cachedResults] at hu
  obtain ⟨k, hk, he⟩ := List.mem_filterMap.mp hu
  cases hc : batchSaveUsage cache (validResults fresh) k.id with
  | none => rw [hc] at he; cases he
  | some w =>
    rw [hc] at he
    have he2 : (if now - w.lastUpdated < ttl then some w else none) = some u := he
    by_cases hlt : now - w.lastUpdated < ttl
    · rw [if_pos hlt] at he2
      have huw : w = u := by injection he2
      exact huw ▸ hpres k.id w hc
    · rw [if_neg hlt] at he2
      cases he2

/-- Witness for C9: an empty cache plus one error-free and one errored
fresh record; the written record for `"b"` is error-free. -/
theorem C9_writeback_error_free_witness :
    batchSaveUsage (fun _ => none)
        (validResults [errorUsage "a" "boom",
          ⟨"b", "", "", "", 1, 2, 3, 4, 5, ""⟩]) "b" =
      some (toStorage ⟨"b", "", "", "", 1, 2, 3, 4, 5, ""⟩) ∧
    (toStorage ⟨"b", "", "", "", 1, 2, 3, 4, 5, ""⟩).error = "" := by
  refine ⟨by decide, ?_⟩
  exact (C9_writeback_error_free
    [errorUsage "a" "boom", ⟨"b", "", "", "", 1, 2, 3, 4, 5, ""⟩]
    (fun _ => none) (fun x u h => nomatch h)).2.1 "b"
    (toStorage ⟨"b", "", "", "", 1, 2, 3, 4, 5, ""⟩) (by decide)

/-- Claim C3: `BatchProcess` never fails as a whole (the Go error return
is always nil); a key whose fetch produced a worker-level error and whose
result arrived in time is represented by a record carrying that error
string (a successful fetch's record is passed through, covering the
HTTP-status error records); a key whose result never arrived is given the
`"Processing timeout"` placeholder. -/
theorem C3_batch_failure_isolation (keys : List APIKey)
    (sub : ℕ → SubmitOutcome) (fetch : APIKey → FetchOutcome)
    (arrivals : List ℕ) (hids : (keys.map APIKey.id).Nodup)
    (hwf : ∀ j ∈ arrivals, sub j ≠ SubmitOutcome.fail) :
    (BatchProcess keys sub fetch arrivals).2 = none ∧
    (∀ (i : ℕ) (hi : i < keys.length) (msg : String),
      sub i ≠ SubmitOutcome.fail → i ∈ arrivals →
      fetch keys[i] = FetchOutcome.failure msg →
      (BatchProcess keys sub fetch arrivals).1[i]? =
        some (errorUsage keys[i].id msg)) ∧
    (∀ (i : ℕ) (hi : i < keys.length) (u : Usage),
      sub i ≠ SubmitOutcome.fail → i ∈ arrivals →
      fetch keys[i] = FetchOutcome.success u →
      (BatchProcess keys sub fetch arrivals).1[i]? = some u) ∧
    (∀ (i : ℕ) (hi : i < keys.length),
      sub i ≠ SubmitOutcome.fail → i ∉ arrivals →
      (BatchProcess keys sub fetch arrivals).1[i]? =
        some (errorUsage keys[i].id "Processing timeout")) := by
  refine ⟨batch_snd keys sub fetch arrivals, ?_, ?_, ?_⟩
  · intro i hi msg hs ha hf
    rw [batch_get keys sub fetch arrivals i hi,
      batch_lookup keys sub fetch arrivals hids hwf i hi, if_neg hs, if_pos ha]
    simp [recordOf, hf]
  · intro i hi u hs ha hf
    rw [batch_get keys sub fetch arrivals i hi,
      batch_lookup keys sub fetch arrivals hids hwf i hi, if_neg hs, if_pos ha]
    simp [recordOf, hf]
  · intro i hi hs ha
    rw [batch_get keys sub fetch arrivals i hi,
      batch_lookup keys sub fetch arrivals hids hwf i hi, if_neg hs, if_neg ha]

/-- Witness for C3: two keys, the second arriving with a transport error,
the first never arriving. -/
theorem C3_batch_failure_isolation_witness :
    (BatchProcess [⟨"k1", "s1", "n1"⟩, ⟨"k2", "s2", "n2"⟩]
      (fun _ => SubmitOutcome.first)
      (fun _ => FetchOutcome.failure "API request failed: x") [1]).2 = none ∧
    (BatchProcess [⟨"k1", "s1", "n1"⟩, ⟨"k2", "s2", "n2"⟩]
      (fun _ => SubmitOutcome.first)
      (fun _ => FetchOutcome.failure "API request failed: x") [1]).1[1]? =
      some (errorUsage "k2" "API request failed: x") ∧
    (BatchProcess [⟨"k1", "s1", "n1"⟩, ⟨"k2", "s2", "n2"⟩]
      (fun _ => SubmitOutcome.first)
      (fun _ => FetchOutcome.failure "API request failed: x") [1]).1[0]? =
      some (errorUsage "k1" "Processing timeout") := by
  have h := C3_batch_failure_isolation
    [⟨"k1", "s1", "n1"⟩, ⟨"k2", "s2", "n2"⟩] (fun _ => SubmitOutcome.first)
    (fun _ => FetchOutcome.failure "API request failed: x") [1]
    (by decide) (by intro j hj; simp)
  exact ⟨h.1,
    h.2.1 1 (by decide) "API request failed: x" (by decide) (by decide) rfl,
    h.2.2.2 0 (by decide) (by decide) (by decide)⟩

/-- Claim C5: a key whose two submission attempts both found the task
queue full (the retry after the 10 ms sleep happening exactly once)
is recorded as a `"task queue full"` placeholder at its input position,
and still owns exactly one entry of the returned result list. -/
theorem C5_queue_full_placeholder (keys : List APIKey)
    (space : ℕ → ℕ → Bool) (fetch : APIKey → FetchOutcome)
    (arrivals : List ℕ) (hids : (keys.map APIKey.id).Nodup)
    (hwf : ∀ j ∈ arrivals, submitOutcome space j ≠ SubmitOutcome.fail)
    (hfetch : ∀ k u, fetch k = FetchOutcome.success u → u.id = k.id)
    (i : ℕ) (hi : i < keys.length)
    (h0 : space i 0 = false) (h1 : space i 1 = false) :
    retrySleepMillis = 10 ∧
    submitOutcome space i = SubmitOutcome.fail ∧
    (BatchProcess keys (submitOutcome space) fetch arrivals).1[i]? =
      some (errorUsage keys[i].id "task queue full") ∧
    ((BatchProcess keys (submitOutcome space) fetch arrivals).1.countP
      fun u => u.id == keys[i].id) = 1 := by
  have hsf : submitOutcome space i = SubmitOutcome.fail := by
    rw [submitOutcome, h0, h1]
    rfl
  refine ⟨rfl, hsf, ?_, ?_⟩
  · rw [batch_get keys (submitOutcome space) fetch arrivals i hi,
      batch_lookup keys (submitOutcome space) fetch arrivals hids hwf i hi,
      if_pos hsf]
  · have hmap := batch_ids keys (submitOutcome space) fetch arrivals hfetch
    have hstep : ((BatchProcess keys (submitOutcome space) fetch arrivals).1.countP
        fun u => u.id == keys[i].id) =
        (((BatchProcess keys (submitOutcome space) fetch arrivals).1.map
          Usage.id).countP fun y => y == keys[i].id) := by
      rw [List.countP_map]
      rfl
    rw [hstep, hmap]
    have hmem : keys[i].id ∈ keys.map APIKey.id :=
      List.mem_map_of_mem APIKey.id (List.getElem_mem hi)
    exact List.count_eq_one_of_mem hids hmem

/-- Witness for C5: one key in a batch of two whose queue was full on both
attempts. -/
theorem C5_queue_full_placeholder_witness :
    retrySleepMillis = 10 ∧
    submitOutcome (fun i _ => i == 1) 0 = SubmitOutcome.fail ∧
    (BatchProcess [⟨"k1", "s1", "n1"⟩, ⟨"k2", "s2", "n2"⟩]
      (submitOutcome (fun i _ => i == 1))
      (fun _ => FetchOutcome.failure "x") [1]).1[0]? =
      some (errorUsage "k1" "task queue full") ∧
    ((BatchProcess [⟨"k1", "s1", "n1"⟩, ⟨"k2", "s2", "n2"⟩]
      (submitOutcome (fun i _ => i == 1))
      (fun _ => FetchOutcome.failure "x") [1]).1.countP
      fun u => u.id == "k1") = 1 := by
  have h := C5_queue_full_placeholder
    [⟨"k1", "s1", "n1"⟩, ⟨"k2", "s2", "n2"⟩] (fun i _ => i == 1)
    (fun _ => FetchOutcome.failure "x") [1] (by decide)
    (by intro j hj; simp at hj; subst hj; decide)
    (by intro k u hk; cases hk) 0 (by decide) (by decide) (by decide)
  exact h

/-- Claim C1 (corrected): the report's record list always has exactly one
record per input key, and its identifier sequence is the identifiers of
the cache-fresh keys in input order followed by the identifiers of the
uncached keys in input order — for every completion order of the
concurrent fetches — so it is a permutation of the input identifiers, but
it matches the input positions only when the partition does not
interleave (hypotheses: the fetcher and the cache return records carrying
the identifier they were asked for). -/
theorem C1_report_order_corrected (keys : List APIKey)
    (cache : String → Option Usage) (now ttl : ℤ) (sub : ℕ → SubmitOutcome)
    (fetch : APIKey → FetchOutcome) (arrivals : List ℕ)
    (hfetch : ∀ k u, fetch k = FetchOutcome.success u → u.id = k.id)
    (hcache : ∀ x u, cache x = some u → u.id = x) :
    (GetAggregatedData keys cache now ttl sub fetch arrivals).data.map
        Usage.id =
      (keys.filter (isFreshCache cache now ttl)).map APIKey.id ++
      (uncachedKeys keys cache now ttl).map APIKey.id ∧
    ((GetAggregatedData keys cache now ttl sub fetch arrivals).data.map
      Usage.id).Perm (keys.map APIKey.id) ∧
    (GetAggregatedData keys cache now ttl sub fetch arrivals).data.length =
      keys.length := by
  have hmain : (GetAggregatedData keys cache now ttl sub fetch arrivals).data.map
      Usage.id =
      (keys.filter (isFreshCache cache now ttl)).map APIKey.id ++
      (uncachedKeys keys cache now ttl).map APIKey.id := by
    by_cases h : keys = []
    · subst h; rfl
    · rw [GetAggregatedData, if_neg h]
      simp only
      rw [List.map_append]
      congr 1
      · exact cachedResults_map_id keys cache now ttl hcache
      · by_cases hu : uncachedKeys keys cache now ttl = []
        · rw [if_pos hu, hu]
          rfl
        · rw [if_neg hu]
          exact batch_ids _ sub fetch arrivals hfetch
  have hperm : ((GetAggregatedData keys cache now ttl sub fetch arrivals).data.map
      Usage.id).Perm (keys.map APIKey.id) := by
    rw [hmain, uncachedKeys, ← List.map_append]
    exact (List.filter_append_perm (isFreshCache cache now ttl) keys).map
      APIKey.id
  refine ⟨hmain, hperm, ?_⟩
  have hlen := hperm.length_eq
  simpa using hlen

/-- Counterexample for C1 as stated: with key `"id1"` uncached and key
`"id2"` fresh in the cache, the report lists `"id2"` first, so the output
identifier at position 0 differs from the input identifier at position 0.
-/
theorem C1_report_order_counterexample :
    (GetAggregatedData [⟨"id1", "s1", "n1"⟩, ⟨"id2", "s2", "n2"⟩]
      (fun x => if x = "id2" then some ⟨"id2", "", "", "", 0, 0, 0, 0, 0, ""⟩
        else none) 0 1
      (fun _ => SubmitOutcome.first)
      (fun k => FetchOutcome.success ⟨k.id, "", "", "", 0, 0, 0, 0, 0, ""⟩)
      [0]).data.map Usage.id = ["id2", "id1"] ∧
    ([⟨"id1", "s1", "n1"⟩, ⟨"id2", "s2", "n2"⟩] : List APIKey).map APIKey.id =
      ["id1", "id2"] ∧
    ("id2" : String) ≠ "id1" :=
  ⟨by decide, by decide, by decide⟩

/-- Witness for C1 (corrected) at the same two-key instance. -/
theorem C1_report_order_witness :
    (GetAggregatedData [⟨"id1", "s1", "n1"⟩, ⟨"id2", "s2", "n2"⟩]
      (fun x => if x = "id2" then some ⟨"id2", "", "", "", 0, 0, 0, 0, 0, ""⟩
        else none) 0 1
      (fun _ => SubmitOutcome.first)
      (fun k => FetchOutcome.success ⟨k.id, "", "", "", 0, 0, 0, 0, 0, ""⟩)
      [0]).data.map Usage.id =
      (([⟨"id1", "s1", "n1"⟩, ⟨"id2", "s2", "n2"⟩] : List APIKey).filter
        (isFreshCache
          (fun x => if x = "id2" then some ⟨"id2", "", "", "", 0, 0, 0, 0, 0, ""⟩
            else none) 0 1)).map APIKey.id ++
      (uncachedKeys [⟨"id1", "s1", "n1"⟩, ⟨"id2", "s2", "n2"⟩]
        (fun x => if x = "id2" then some ⟨"id2", "", "", "", 0, 0, 0, 0, 0, ""⟩
          else none) 0 1).map APIKey.id ∧
    ((GetAggregatedData [⟨"id1", "s1", "n1"⟩, ⟨"id2", "s2", "n2"⟩]
      (fun x => if x = "id2" then some ⟨"id2", "", "", "", 0, 0, 0, 0, 0, ""⟩
        else none) 0 1
      (fun _ => SubmitOutcome.first)
      (fun k => FetchOutcome.success ⟨k.id, "", "", "", 0, 0, 0, 0, 0, ""⟩)
      [0]).data.map Usage.id).Perm
      (([⟨"id1", "s1", "n1"⟩, ⟨"id2", "s2", "n2"⟩] : List APIKey).map
        APIKey.id) ∧
    (GetAggregatedData [⟨"id1", "s1", "n1"⟩, ⟨"id2", "s2", "n2"⟩]
      (fun x => if x = "id2" then some ⟨"id2", "", "", "", 0, 0, 0, 0, 0, ""⟩
        else none) 0 1
      (fun _ => SubmitOutcome.first)
      (fun k => FetchOutcome.success ⟨k.id, "", "", "", 0, 0, 0, 0, 0, ""⟩)
      [0]).data.length =
      ([⟨"id1", "s1", "n1"⟩, ⟨"id2", "s2", "n2"⟩] : List APIKey).length := by
  exact C1_report_order_corrected
    [⟨"id1", "s1", "n1"⟩, ⟨"id2", "s2", "n2"⟩]
    (fun x => if x = "id2" then some ⟨"id2", "", "", "", 0, 0, 0, 0, 0, ""⟩
      else none) 0 1
    (fun _ => SubmitOutcome.first)
    (fun k => FetchOutcome.success ⟨k.id, "", "", "", 0, 0, 0, 0, 0, ""⟩)
    [0]
    (by
      intro k u hk
      injection hk with h2
      rw [← h2])
    (by
      intro x u hx
      have hx3 : (if x = "id2" then
          some (⟨"id2", "", "", "", 0, 0, 0, 0, 0, ""⟩ : Usage) else none) =
          some u := hx
      by_cases hx2 : x = "id2"
      · rw [if_pos hx2] at hx3
        injection hx3 with h2
        rw [← h2, hx2]
      · rw [if_neg hx2] at hx3
        cases hx3)

end KeyUsage
